import Mathlib

/-!
Verification of the score-follower viewer components.

The development shallowly embeds the synchronization logic of the two
`ScoreViewerScroll` variants:

* `findCurrentMeasure` — the position interpolator mapping audio time to
  (measure, fractional progress) through the anchor table;
* `handleScoreClick` — click-to-seek hit-testing and anchor lookup;
* `updateMeasureVisibility` — reveal-mode per-measure opacity;
* note highlighting and the record-mode reset of the per-frame step;
* `calculateNoteMap` — the geometry mapper building the note time grid;
* the per-frame try/catch structure of `updateCursorPosition` and the
  `animate` loop.

Real times are embedded as rationals (`ℚ`). The stable JavaScript
`Array.prototype.sort` with an ascending comparator is embedded as
Mathlib `List.insertionSort`, which is a stable ascending sort and hence
extensionally equal to it. The JavaScript `Infinity` sentinel for the
open last segment is embedded as `Option ℚ` with `none` standing for
`Infinity`.
-/

/-- An anchor row: a measure number with its playback time in seconds. -/
structure Anchor where
  measure : Nat
  time : ℚ
deriving Repr, DecidableEq

/-- The comparator `(a, b) => a.time - b.time` viewed as a relation:
ascending by time. -/
def Anchor.byTime (a b : Anchor) : Prop := a.time ≤ b.time

instance : DecidableRel Anchor.byTime := fun a b => inferInstanceAs (Decidable (a.time ≤ b.time))

instance : IsTotal Anchor Anchor.byTime := ⟨fun a b => le_total a.time b.time⟩

instance : IsTrans Anchor Anchor.byTime := ⟨fun _ _ _ h h' => le_trans h h'⟩

/-- The comparator `(a, b) => a.measure - b.measure` viewed as a relation:
ascending by measure. -/
def Anchor.byMeasure (a b : Anchor) : Prop := a.measure ≤ b.measure

instance : DecidableRel Anchor.byMeasure :=
  fun a b => inferInstanceAs (Decidable (a.measure ≤ b.measure))

instance : IsTotal Anchor Anchor.byMeasure := ⟨fun a b => Nat.le_total a.measure b.measure⟩

instance : IsTrans Anchor Anchor.byMeasure := ⟨fun _ _ _ h h' => Nat.le_trans h h'⟩

/-- The stable ascending sort by time, modelling
`[...anchors].sort((a, b) => a.time - b.time)`. -/
def timeSorted (anchors : List Anchor) : List Anchor :=
  List.insertionSort Anchor.byTime anchors

/-- Model of `Math.min` on rationals, written with an explicit test so
that it evaluates by kernel reduction. -/
def jsMin (a b : ℚ) : ℚ := if a ≤ b then a else b

/-- Model of `Math.max` on rationals, written with an explicit test so
that it evaluates by kernel reduction. -/
def jsMax (a b : ℚ) : ℚ := if b ≤ a then a else b

/-- The scanning loop of `findCurrentMeasure`: walks the time-sorted
anchors; while `time >= anchor.time` it records
`(currentMeasure, measureStartTime, measureEndTime)` where the end time is
the time of the next anchor (`none` = `Infinity` when the anchor is last),
and `break`s at the first anchor with `anchor.time > time`. -/
def findLoop (time : ℚ) : List Anchor → Nat × ℚ × Option ℚ → Nat × ℚ × Option ℚ
  | [], st => st
  | anchor :: restAnchors, st =>
    if anchor.time ≤ time then
      findLoop time restAnchors
        (anchor.measure, anchor.time, (restAnchors.head?).map Anchor.time)
    else st

/-- The position interpolator (`findCurrentMeasure` in both viewer
variants): returns the current measure number and the clamped fractional
progress inside the active anchor segment. -/
def findCurrentMeasure (anchors : List Anchor) (time : ℚ) : Nat × ℚ :=
  if anchors.isEmpty then (1, 0) else
  let sortedAnchors := timeSorted anchors
  let res := findLoop time sortedAnchors (1, 0, none)
  let progress : ℚ :=
    match res.2.2 with
    | some measureEndTime =>
      if res.2.1 < measureEndTime then
        jsMax 0 (jsMin 1 ((time - res.2.1) / (measureEndTime - res.2.1)))
      else 0
    | none => 0
  (res.1, progress)

/-- The loop guard `time >= anchor.time` as a Boolean predicate on anchors. -/
def anchorLE (time : ℚ) (a : Anchor) : Bool := decide (a.time ≤ time)

/-- The largest finite IEEE-754 double `Number.MAX_VALUE`, that is
`(2^53 - 1) * 2^971`, exact as a rational. -/
def NUMBER_MAX_VALUE : ℚ := (2 ^ 53 - 1) * 2 ^ 971

/-- The smallest positive IEEE-754 double `Number.MIN_VALUE`, that is
`2^(-1074)`, exact as a rational. -/
def NUMBER_MIN_VALUE : ℚ := 1 / 2 ^ 1074

/-- The `PositionAndShape` of a staff measure: `AbsolutePosition.x/.y`
and the four border offsets, in the abstract layout units of the
renderer. -/
structure PosShape where
  absX : ℚ
  absY : ℚ
  borderLeft : ℚ
  borderRight : ℚ
  borderTop : ℚ
  borderBottom : ℚ
deriving Repr, DecidableEq

/-- The bounds accumulation of `handleScoreClick`: starting from
`(Number.MAX_VALUE, Number.MIN_VALUE, Number.MAX_VALUE, Number.MIN_VALUE)`
as `(minY, maxY, minX, maxX)`, each staff measure with a present
`PositionAndShape` widens the bounds (a staff measure whose shape is
missing is skipped by the `if (!pos) return` guard). -/
def measureBounds (staves : List (Option PosShape)) : ℚ × ℚ × ℚ × ℚ :=
  staves.foldl
    (fun acc pos? =>
      match pos? with
      | none => acc
      | some pos =>
        let top := pos.absY + pos.borderTop
        let bottom := pos.absY + pos.borderBottom
        let left := pos.absX + pos.borderLeft
        let right := pos.absX + pos.borderRight
        (if top < acc.1 then top else acc.1,
         if acc.2.1 < bottom then bottom else acc.2.1,
         if left < acc.2.2.1 then left else acc.2.2.1,
         if acc.2.2.2 < right then right else acc.2.2.2))
    (NUMBER_MAX_VALUE, NUMBER_MIN_VALUE, NUMBER_MAX_VALUE, NUMBER_MIN_VALUE)

/-- The hit test of `handleScoreClick` for one measure: the click point
lies inside the pixel bounding box of the measure (bounds scaled by
`unitInPixels`, all comparisons closed). -/
def boxContains (unitInPixels : ℚ) (staves : List (Option PosShape))
    (clickX clickY : ℚ) : Prop :=
  let b := measureBounds staves
  b.2.2.1 * unitInPixels ≤ clickX ∧ clickX ≤ b.2.2.2 * unitInPixels ∧
    b.1 * unitInPixels ≤ clickY ∧ clickY ≤ b.2.1 * unitInPixels

instance (u : ℚ) (staves : List (Option PosShape)) (cx cy : ℚ) :
    Decidable (boxContains u staves cx cy) := by
  unfold boxContains
  exact inferInstance

/-- The `for` loop of `handleScoreClick`: scans measures from index `i`
(`null` entries of the measure list are skipped by `continue`), and
`break`s with the first index whose box contains the click point;
`none` models the `-1` sentinel. -/
def hitTestLoop (unitInPixels clickX clickY : ℚ) :
    List (Option (List (Option PosShape))) → Nat → Option Nat
  | [], _ => none
  | none :: restMeasures, i => hitTestLoop unitInPixels clickX clickY restMeasures (i + 1)
  | some staves :: restMeasures, i =>
    if boxContains unitInPixels staves clickX clickY then some i
    else hitTestLoop unitInPixels clickX clickY restMeasures (i + 1)

/-- The stable ascending sort by measure used by the click handler,
modelling `[...anchors].sort((a, b) => a.measure - b.measure)`. -/
def measureSorted (anchors : List Anchor) : List Anchor :=
  List.insertionSort Anchor.byMeasure anchors

/-- The anchor scan
`sortedAnchors.reverse().find(a => a.measure <= measureNumber)`:
the first anchor of the reversed (descending-by-measure) order whose
measure is at most the clicked measure number. -/
def seekTarget (anchors : List Anchor) (measureNumber : Nat) : Option Anchor :=
  (measureSorted anchors).reverse.find? (fun a => decide (a.measure ≤ measureNumber))

/-- The click handler `handleScoreClick` (identical in both viewer
variants): converts the click to container coordinates, hit-tests the
measure boxes, and on a hit with a qualifying anchor sets the audio clock
to the time of that anchor; otherwise the audio clock keeps its current
value. -/
def handleScoreClick (unitInPixels : ℚ)
    (measureList : List (Option (List (Option PosShape))))
    (anchors : List Anchor)
    (clientX clientY rectLeft rectTop currentTime : ℚ) : ℚ :=
  let clickX := clientX - rectLeft
  let clickY := clientY - rectTop
  match hitTestLoop unitInPixels clickX clickY measureList 0 with
  | none => currentTime
  | some clickedMeasureIndex =>
    match seekTarget anchors (clickedMeasureIndex + 1) with
    | none => currentTime
    | some targetAnchor => targetAnchor.time

/-- The layout used by the click example of the spec: three measures
whose pixel boxes (at `unitInPixels = 1`) span x-ranges `[0,10]`,
`[12,20]`, `[22,30]`, each with y-range `[0,40]`. -/
def demoMeasureList : List (Option (List (Option PosShape))) :=
  [some [some ⟨0, 0, 0, 10, 0, 40⟩],
   some [some ⟨12, 0, 0, 8, 0, 40⟩],
   some [some ⟨22, 0, 0, 8, 0, 40⟩]]

/-- The reveal mode of the second viewer variant
(OFF, NOTE or CURTAIN). -/
inductive RevealMode
  | OFF
  | NOTE
  | CURTAIN
deriving Repr, DecidableEq

/-- The CSS class of a glyph collected by the content-map selector
(`.vf-stavenote`, `.vf-beam`, `.vf-rest`, `.vf-accidental`,
`.vf-modifier`). -/
inductive GlyphClass
  | stavenote
  | beam
  | rest
  | accidental
  | modifier
deriving Repr, DecidableEq

/-- A rendered glyph: its class and its current CSS opacity. -/
structure Glyph where
  cls : GlyphClass
  opacity : ℚ
deriving Repr, DecidableEq

/-- The per-glyph opacity rule of `updateMeasureVisibility`: strictly past
measures become opaque, strictly future measures become transparent, and
in the current measure only beams and rests are forced opaque (notes are
left to the highlighting loop). -/
def updateGlyphVisibility (currentMeasure measureNum : Nat) (g : Glyph) : Glyph :=
  if measureNum < currentMeasure then { g with opacity := 1 }
  else if currentMeasure < measureNum then { g with opacity := 0 }
  else if g.cls = GlyphClass.beam ∨ g.cls = GlyphClass.rest then { g with opacity := 1 }
  else g

/-- The function `updateMeasureVisibility` of the second viewer variant:
a no-op unless the reveal mode is NOTE, otherwise it applies the
per-glyph rule to every measure of the content map. -/
def updateMeasureVisibility (revealMode : RevealMode)
    (measureContentMap : List (Nat × List Glyph)) (currentMeasure : Nat) :
    List (Nat × List Glyph) :=
  if revealMode ≠ RevealMode.NOTE then measureContentMap
  else
    measureContentMap.map
      (fun entry => (entry.1, entry.2.map (updateGlyphVisibility currentMeasure entry.1)))

/-- The application mode (`AppMode`). -/
inductive Mode
  | PLAYBACK
  | RECORD
deriving Repr, DecidableEq

/-- The style state of a rendered note group: its CSS opacity and the
colour applied by `applyColor`. -/
structure NoteStyleState where
  opacity : ℚ
  color : String
deriving Repr, DecidableEq

/-- One note-map entry consumed by the highlighting loop: the
intra-measure relative timestamp and the rendered element of the note
(`none` models a null element reference, skipped by the loop). -/
structure NoteItem where
  timestamp : ℚ
  element : Option NoteStyleState
deriving Repr, DecidableEq

/-- The highlight progress of the note loop: the effective progress
rescaled to account for the measure-1 padding offset (`visualStartX`
versus the nominal `minX` of the measure); a zero-width measure degrades
to offset 0 and scale 1. -/
def highlightProgressOf (minX maxX visualStartX effectiveProgress : ℚ) : ℚ :=
  let fullMeasureWidth := maxX - minX
  let activeWidth := maxX - visualStartX
  let startOffset := visualStartX - minX
  let offsetRatio := if 0 < fullMeasureWidth then startOffset / fullMeasureWidth else 0
  let scaleRatio := if 0 < fullMeasureWidth then activeWidth / fullMeasureWidth else 1
  offsetRatio + effectiveProgress * scaleRatio

/-- The per-note styling of the playback-mode highlighting loop in the
second viewer variant: under NOTE reveal the note is hidden exactly when
the highlight progress is more than the 0.04 lookahead before its
timestamp, and the note is painted the highlight colour exactly while the
highlight progress lies in `[timestamp - 0.04, timestamp + 0.01]`,
default colour otherwise. -/
def styleNotePlayback (revealMode : RevealMode) (highlightProgress : ℚ)
    (n : NoteItem) : NoteItem :=
  match n.element with
  | none => n
  | some el =>
    let lookahead : ℚ := 4/100
    let noteEndThreshold : ℚ := n.timestamp + 1/100
    let el1 :=
      if revealMode = RevealMode.NOTE then
        if highlightProgress < n.timestamp - lookahead then { el with opacity := 0 }
        else { el with opacity := 1 }
      else el
    let el2 :=
      if highlightProgress ≤ noteEndThreshold ∧ n.timestamp - lookahead ≤ highlightProgress then
        { el1 with color := "#10B981" }
      else { el1 with color := "#000000" }
    { n with element := some el2 }

/-- The record-mode reset of the `AnchorSidebar.tsx` variant: the note is
painted the default colour and restored to full opacity. -/
def recordResetNote (n : NoteItem) : NoteItem :=
  match n.element with
  | none => n
  | some el => { n with element := some { el with opacity := 1, color := "#000000" } }

/-- The record-mode reset loop of the `AnchorSidebar.tsx` variant: every
note of the current measure is reset. -/
def recordResetSidebar (notes : List NoteItem) : List NoteItem :=
  notes.map recordResetNote

/-- The record-mode reset loop of the `part_000` variant. In that source
text the `applyColor` call on the first of its two lines is not
terminated, and the following line starts with an opening parenthesis, so
the two lines parse as one call expression: the parenthesised element
cast is the argument of a second call applied to the `undefined` return
value of `applyColor`, and the opacity member assignment chains onto the
result of that second call. Its evaluation order is: the callee
`applyColor` runs (painting the note black), the argument — just the
element reference — is evaluated without side effect, and then invoking
the `undefined` value throws a `TypeError` before the member access or
the assignment is ever reached. So the first note that has an element is
only recolored — its opacity is never restored — and the `forEach`
aborts with the exception; notes with no element before it are skipped
normally; all later notes keep their previous style. -/
def recordResetScroll : List NoteItem → List NoteItem × Option String
  | [] => ([], none)
  | n :: restNotes =>
    match n.element with
    | none =>
      let r := recordResetScroll restNotes
      (n :: r.1, r.2)
    | some el =>
      ({ n with element := some { el with color := "#000000" } } :: restNotes,
       some "TypeError: applyColor(...) is not a function")

/-- The DOM environment consumed by `calculateNoteMap`:
`document.getElementById` and the `.vf-stavenote` group lookup done with
`element.closest`, with rendered elements identified by numbers. -/
structure Dom where
  byId : String → Option Nat
  closestStavenote : Nat → Option Nat

/-- A graphical note as read by the mapper: `internalNote.vfnote` is a
list whose entries carry `attrs?.id` (`none` when `attrs` is missing). -/
structure GNote where
  vfnote : List (Option String)

/-- A graphical voice entry; `notes` is `none` when missing. -/
structure GVEntry where
  notes : Option (List GNote)

/-- A staff entry: the `RelativePosition.x` of its position and its
graphical voice entries (`none` when missing). -/
structure StaffEntryG where
  relX : ℚ
  graphicalVoiceEntries : Option (List GVEntry)

/-- A staff measure as read by the mapper: the `BorderLeft` and
`BorderRight` of its `PositionAndShape` and its staff entries. -/
structure StaffMeasureG where
  borderLeft : ℚ
  borderRight : ℚ
  staffEntries : List StaffEntryG

/-- One produced note-map entry. -/
structure NoteData where
  id : String
  measureIndex : Nat
  timestamp : ℚ
  element : Nat
deriving Repr, DecidableEq

/-- The innermost step of the mapper: a note contributes an entry exactly
when `vfnote` is non-empty, its first entry has an id, and the id (or its
`vf-` prefixed form) resolves to a document element; the entry records
the enclosing `.vf-stavenote` group when one exists, the element itself
otherwise. `relativeTimestamp` is passed in from the staff entry. -/
def noteEntriesOfNote (dom : Dom) (measureNumber : Nat) (relativeTimestamp : ℚ)
    (note : GNote) : List NoteData :=
  match note.vfnote.head? with
  | none => []
  | some attrsId =>
    match attrsId with
    | none => []
    | some vfId =>
      if vfId = "" then [] else
      let element :=
        match dom.byId vfId with
        | some el => some el
        | none => dom.byId ("vf-" ++ vfId)
      match element with
      | none => []
      | some el =>
        let group := (dom.closestStavenote el).getD el
        [⟨vfId, measureNumber, relativeTimestamp, group⟩]

/-- The per-staff-entry step: missing voice entries contribute nothing;
otherwise `relativeTimestamp = (relX * unitInPixels) / measureWidth` is
computed (in the source a zero `measureWidth` makes this a division by
zero producing a non-finite number; the embedding uses rational division,
where division by zero yields 0 — either way the notes are still mapped)
and every note of every voice entry is processed. -/
def noteEntriesOfEntry (dom : Dom) (unitInPixels measureWidth : ℚ)
    (measureNumber : Nat) (entry : StaffEntryG) : List NoteData :=
  match entry.graphicalVoiceEntries with
  | none => []
  | some gves =>
    let relX := entry.relX * unitInPixels
    let relativeTimestamp := relX / measureWidth
    gves.flatMap (fun gve =>
      match gve.notes with
      | none => []
      | some ns => ns.flatMap (noteEntriesOfNote dom measureNumber relativeTimestamp))

/-- The per-measure step: a `null` or empty staves array contributes
nothing; otherwise the width of each staff measure is
`(BorderRight - BorderLeft) * unitInPixels` and its staff entries are
processed (a `null` staff measure is skipped). -/
def noteEntriesOfMeasure (dom : Dom) (unitInPixels : ℚ) (measureNumber : Nat)
    (staves? : Option (List (Option StaffMeasureG))) : List NoteData :=
  match staves? with
  | none => []
  | some staves =>
    if staves.isEmpty then [] else
    staves.flatMap (fun sm? =>
      match sm? with
      | none => []
      | some sm =>
        let measureWidth := (sm.borderRight - sm.borderLeft) * unitInPixels
        sm.staffEntries.flatMap
          (noteEntriesOfEntry dom unitInPixels measureWidth measureNumber))

/-- The measure loop of `calculateNoteMap` (note-map part), carrying the
running measure index: an entry is added to the map only when the measure
produced at least one note. -/
def calcNoteMapGo (dom : Dom) (unitInPixels : ℚ) :
    Nat → List (Option (List (Option StaffMeasureG))) → List (Nat × List NoteData)
  | _, [] => []
  | i, staves? :: restMeasures =>
    let measureNumber := i + 1
    let measureNotes := noteEntriesOfMeasure dom unitInPixels measureNumber staves?
    let restMap := calcNoteMapGo dom unitInPixels (i + 1) restMeasures
    if measureNotes.isEmpty then restMap else (measureNumber, measureNotes) :: restMap

/-- The note-map pass of `calculateNoteMap`: builds the measure-indexed
note map from the rendered measure list. -/
def calculateNoteMap (dom : Dom) (unitInPixels : ℚ)
    (measureList : List (Option (List (Option StaffMeasureG)))) :
    List (Nat × List NoteData) :=
  calcNoteMapGo dom unitInPixels 0 measureList

/-- The DOM of the zero-width-measure example: the id `n1` resolves to
element 7, which has no enclosing `.vf-stavenote` group. -/
def c7Dom : Dom :=
  ⟨fun s => if s = "n1" then some 7 else none, fun _ => none⟩

/-- A layout whose single measure has `BorderLeft = BorderRight = 3`
(zero width) and one staff entry holding one resolvable note. -/
def c7MeasureList : List (Option (List (Option StaffMeasureG))) :=
  [some [some ⟨3, 3, [⟨2, some [⟨some [⟨[some "n1"]⟩]⟩]⟩]⟩]]

/-- Model of `Math.abs` on rationals, written with an explicit test. -/
def jsAbs (x : ℚ) : ℚ := if x < 0 then -x else x

/-- The scale fallback `(osmd.GraphicSheet as any).UnitInPixels || 10`:
the JavaScript `||` falls back to 10 when the value is missing or
zero. -/
def unitOrDefault (v? : Option ℚ) : ℚ :=
  match v? with
  | none => 10
  | some v => if v = 0 then 10 else v

/-- The per-note styling of the `part_000` playback loop (Boolean reveal
mode): with reveal off the note is made opaque unconditionally; with
reveal on it is hidden exactly when the highlight progress is more than
the 0.04 lookahead before its timestamp; the colour rule is shared with
the other variant. -/
def styleNotePlaybackScroll (revealMode : Bool) (highlightProgress : ℚ)
    (n : NoteItem) : NoteItem :=
  match n.element with
  | none => n
  | some el =>
    let lookahead : ℚ := 4/100
    let noteEndThreshold : ℚ := n.timestamp + 1/100
    let el1 :=
      if revealMode then
        if highlightProgress < n.timestamp - lookahead then { el with opacity := 0 }
        else { el with opacity := 1 }
      else { el with opacity := 1 }
    let el2 :=
      if highlightProgress ≤ noteEndThreshold ∧ n.timestamp - lookahead ≤ highlightProgress then
        { el1 with color := "#10B981" }
      else { el1 with color := "#000000" }
    { n with element := some el2 }

/-- The `part_000` `updateMeasureVisibility`: a no-op with reveal off;
otherwise notes of past measures become opaque, notes of future measures
transparent (the notes of the current measure are left to the highlight
loop), and beams of past and of the current measure become opaque, beams
of future measures transparent. -/
def updateMeasureVisibilityScroll (revealMode : Bool)
    (noteMap : List (Nat × List NoteItem)) (beamsMap : List (Nat × List ℚ))
    (currentMeasure : Nat) :
    (List (Nat × List NoteItem)) × (List (Nat × List ℚ)) :=
  if !revealMode then (noteMap, beamsMap)
  else
    (noteMap.map (fun e =>
        if e.1 < currentMeasure then
          (e.1, e.2.map (fun n =>
            match n.element with
            | none => n
            | some el => { n with element := some { el with opacity := 1 } }))
        else if currentMeasure < e.1 then
          (e.1, e.2.map (fun n =>
            match n.element with
            | none => n
            | some el => { n with element := some { el with opacity := 0 } }))
        else e),
     beamsMap.map (fun e =>
        if e.1 < currentMeasure then (e.1, e.2.map (fun _ => (1 : ℚ)))
        else if currentMeasure < e.1 then (e.1, e.2.map (fun _ => (0 : ℚ)))
        else (e.1, e.2.map (fun _ => (1 : ℚ)))))

/-- The style of the cursor overlay element. -/
structure CursorStyle where
  left : ℚ
  top : ℚ
  height : ℚ
  visible : Bool
  backgroundColor : String
  boxShadow : String
deriving Repr, DecidableEq

/-- A staff measure as read by the cursor-geometry loop: its
`PositionAndShape` (possibly missing) and the `RelativePosition.x` of its
staff entries. -/
structure SMeasure where
  pos : Option PosShape
  staffEntriesRelX : List ℚ
deriving Repr, DecidableEq

/-- The graphic sheet as read by the per-frame step. -/
structure GSheet where
  unitInPixels? : Option ℚ
  measureList : List (Option (List SMeasure))
deriving Repr, DecidableEq

/-- The running bounds of the cursor-geometry loop. -/
structure CursorBounds where
  minY : ℚ
  maxY : ℚ
  minX : ℚ
  maxX : ℚ
  minNoteX : ℚ
deriving Repr, DecidableEq

/-- One step of the cursor-geometry loop over the staves of the current
measure: a missing `PositionAndShape` skips the staff; otherwise the
four bounds are widened and, when the staff has entries, `minNoteX` is
lowered to the absolute x of the first entry. -/
def cursorBoundsStep (acc : CursorBounds) (sm : SMeasure) : CursorBounds :=
  match sm.pos with
  | none => acc
  | some pos =>
    let top := pos.absY + pos.borderTop
    let bottom := pos.absY + pos.borderBottom
    let left := pos.absX + pos.borderLeft
    let right := pos.absX + pos.borderRight
    let acc1 : CursorBounds :=
      { minY := if top < acc.minY then top else acc.minY
        maxY := if acc.maxY < bottom then bottom else acc.maxY
        minX := if left < acc.minX then left else acc.minX
        maxX := if acc.maxX < right then right else acc.maxX
        minNoteX := acc.minNoteX }
    match sm.staffEntriesRelX.head? with
    | none => acc1
    | some relX =>
      let noteAbsX := pos.absX + relX
      if noteAbsX < acc1.minNoteX then { acc1 with minNoteX := noteAbsX } else acc1

/-- The cursor-geometry fold, started from the
`Number.MAX_VALUE` / `Number.MIN_VALUE` sentinels of the source. -/
def cursorBounds (staves : List SMeasure) : CursorBounds :=
  staves.foldl cursorBoundsStep
    ⟨NUMBER_MAX_VALUE, NUMBER_MIN_VALUE, NUMBER_MAX_VALUE, NUMBER_MIN_VALUE,
      NUMBER_MAX_VALUE⟩

/-- The environment of one animation frame. `fault` injects a thrown DOM
exception right before the numbered effect step (1 = cursor writes,
2 = scroll, 3 = visibility, 4 = note styling), modelling that any DOM
operation inside the `try` block may throw. -/
structure FrameEnv where
  osmdLoaded : Bool
  isLoaded : Bool
  cursorPresent : Bool
  graphicSheet : Option GSheet
  mode : Mode
  revealMode : Bool
  anchors : List Anchor
  audioTime : ℚ
  scrollContainer : Option ℚ
  fault : Option (Nat × String)

/-- The mutable state the per-frame step writes: the cursor style, the
scroll position, a pending smooth-scroll target, `lastMeasureIndexRef`,
and the rendered styles of the note and beam maps. -/
structure FrameState where
  cursor : CursorStyle
  scrollLeft : ℚ
  smoothScrollTarget : Option ℚ
  lastMeasureIndex : Int
  noteMap : List (Nat × List NoteItem)
  beamsMap : List (Nat × List ℚ)
deriving Repr, DecidableEq

/-- Raise the injected exception when the frame reaches step `k`,
carrying the state accumulated so far (DOM effects already performed
persist through a JavaScript throw). -/
def raiseAt (env : FrameEnv) (k : Nat) (st : FrameState) :
    Except (FrameState × String) Unit :=
  match env.fault with
  | some f => if f.1 = k then Except.error (st, f.2) else Except.ok ()
  | none => Except.ok ()

/-- The body of the `try` block of the `part_000` `updateCursorPosition`,
given the result of the interpolator: the guard returns leave the state
untouched; then, in source order, the cursor geometry is computed and the
cursor is styled, the auto-scroll runs, on measure change the reveal
visibility is recomputed, `lastMeasureIndexRef` is set, and the per-note
highlight (playback) or the broken record reset runs. An `error` result
carries the state at the throw point together with the exception text. -/
def tryBody (env : FrameEnv) (st : FrameState) (gs : GSheet)
    (measure : Nat) (progress : ℚ) :
    Except (FrameState × String) FrameState := do
  let currentMeasureIdx : Int := (measure : Int) - 1
  let measureList := gs.measureList
  if measureList.isEmpty then return st
  if (measureList.length : Int) ≤ currentMeasureIdx then return st
  let staves? : Option (List SMeasure) :=
    if currentMeasureIdx < 0 then none else measureList[currentMeasureIdx.toNat]?.join
  match staves? with
  | none => return st
  | some staves =>
    if staves.isEmpty then return st
    let u := unitOrDefault gs.unitInPixels?
    let b := cursorBounds staves
    let systemTop := b.minY * u
    let systemHeight := (b.maxY - b.minY) * u
    let paddingUnits := 12 / u
    let visualStartX :=
      if measure = 1 ∧ b.minNoteX < NUMBER_MAX_VALUE then
        jsMax b.minX (b.minNoteX - paddingUnits)
      else b.minX
    let systemX := visualStartX * u
    let systemWidth := (b.maxX - visualStartX) * u
    let cursorX := systemX + systemWidth * progress
    let _ ← raiseAt env 1 st
    let st1 := { st with cursor :=
      { left := cursorX, top := systemTop, height := systemHeight, visible := true,
        backgroundColor :=
          if env.mode = Mode.RECORD then "rgba(239, 68, 68, 0.6)"
          else "rgba(16, 185, 129, 0.8)",
        boxShadow :=
          if env.mode = Mode.RECORD then "0 0 10px rgba(239, 68, 68, 0.4)"
          else "0 0 8px rgba(16, 185, 129, 0.5)" } }
    let _ ← raiseAt env 2 st1
    let st2 :=
      match env.scrollContainer with
      | none => st1
      | some containerWidth =>
        let targetScrollLeft := cursorX - containerWidth * (1/5)
        let currentScroll := st1.scrollLeft
        let diff := jsAbs (currentScroll - targetScrollLeft)
        let isUserControlling := 250 < diff
        let stA := if ¬ isUserControlling then { st1 with scrollLeft := targetScrollLeft }
          else st1
        if currentMeasureIdx ≠ st1.lastMeasureIndex ∧ 50 < diff then
          { stA with smoothScrollTarget := some targetScrollLeft }
        else stA
    let _ ← raiseAt env 3 st2
    let st3 :=
      if env.revealMode ∧ currentMeasureIdx ≠ st2.lastMeasureIndex then
        let vis := updateMeasureVisibilityScroll env.revealMode st2.noteMap st2.beamsMap measure
        { st2 with noteMap := vis.1, beamsMap := vis.2 }
      else st2
    let st4 := { st3 with lastMeasureIndex := currentMeasureIdx }
    let _ ← raiseAt env 4 st4
    match st4.noteMap.lookup measure with
    | none => return st4
    | some notesInMeasure =>
      if env.mode = Mode.PLAYBACK then
        let hp := highlightProgressOf b.minX b.maxX visualStartX progress
        return { st4 with noteMap := st4.noteMap.map (fun e =>
          if e.1 = measure then (e.1, e.2.map (styleNotePlaybackScroll env.revealMode hp))
          else e) }
      else
        let r := recordResetScroll notesInMeasure
        let st5 := { st4 with noteMap := st4.noteMap.map (fun e =>
          if e.1 = measure then (e.1, r.1) else e) }
        match r.2 with
        | some msg => Except.error (st5, msg)
        | none => return st5

/-- The `part_000` `updateCursorPosition`: after the guard returns, the
whole effectful body runs inside `try`; a thrown exception is caught and
logged through `console.error`, the state at the throw point is kept, and
the function returns normally — its type shows that no exception
propagates to the caller. -/
def updateCursorPosition (env : FrameEnv) (st : FrameState) :
    FrameState × List String :=
  if ¬ (env.osmdLoaded = true ∧ env.isLoaded = true ∧ env.cursorPresent = true) then (st, [])
  else
    match env.graphicSheet with
    | none => (st, [])
    | some gs =>
      let r := findCurrentMeasure env.anchors env.audioTime
      match tryBody env st gs r.1 r.2 with
      | Except.ok st' => (st', [])
      | Except.error (st', msg) => (st', ["Error positioning cursor: " ++ msg])

/-- The `animate` callback: reads the audio time (part of the
environment), calls `updateCursorPosition`, and then — since that call
returned normally — re-registers itself with `requestAnimationFrame`
(the Boolean result). -/
def animate (env : FrameEnv) (st : FrameState) :
    (FrameState × List String) × Bool :=
  let r := updateCursorPosition env st
  (r, true)

/-- The animation loop over a list of frame environments: each frame runs
`animate` and the loop continues exactly when the frame re-registered it;
the result counts the frames that ran. -/
def animationLoop : List FrameEnv → FrameState → FrameState × List String × Nat
  | [], st => (st, [], 0)
  | env :: restFrames, st =>
    let a := animate env st
    if a.2 then
      let rest := animationLoop restFrames a.1.1
      (rest.1, a.1.2 ++ rest.2.1, rest.2.2 + 1)
    else (a.1.1, a.1.2, 1)

/-- The graphic sheet of the C8 witness: one measure, one staff with a
shape and no entries, default unit scale. -/
def c8Sheet : GSheet := ⟨none, [some [⟨some ⟨0, 0, 0, 10, 0, 40⟩, []⟩]]⟩

/-- The frame state of the C8 witness. -/
def c8State : FrameState := ⟨⟨0, 0, 100, false, "", ""⟩, 0, none, -1, [], []⟩

/-- The frame environment of the C8 witness: loaded viewer, playback
mode, no anchors, and a DOM fault injected at the cursor-write step. -/
def c8Env : FrameEnv :=
  ⟨true, true, true, some c8Sheet, Mode.PLAYBACK, false, [], 0, none, some (1, "boom")⟩

/-- The scanning loop is characterised by the longest prefix of anchors the
guard accepts: it returns the accumulator when no anchor is accepted, and
otherwise the data of the last accepted anchor together with the time of
the anchor right after the accepted prefix. -/
lemma findLoop_char (time : ℚ) (l : List Anchor) (st : Nat × ℚ × Option ℚ) :
    findLoop time l st =
      match (l.takeWhile (anchorLE time)).getLast? with
      | none => st
      | some a =>
        (a.measure, a.time,
          ((l.drop (l.takeWhile (anchorLE time)).length).head?).map Anchor.time) := by
  induction l generalizing st with
  | nil => simp [findLoop]
  | cons x rest ih =>
    by_cases hx : x.time ≤ time
    · have hpx : anchorLE time x = true := by simp [anchorLE, hx]
      rw [findLoop, if_pos hx, ih, List.takeWhile_cons, if_pos hpx]
      cases htw : rest.takeWhile (anchorLE time) with
      | nil => simp [htw]
      | cons y ys =>
        rw [List.getLast?_cons_cons]
        cases hgl : (y :: ys).getLast? with
        | none => exact absurd hgl (by simp)
        | some a => simp [List.length_cons, List.drop_succ_cons]
    · have hpx : anchorLE time x = false := by simp [anchorLE, hx]
      rw [findLoop, if_neg hx, List.takeWhile_cons, if_neg (by simp [hpx])]
      rfl

/-- The function `findCurrentMeasure`, characterised through the accepted
prefix of the time-sorted anchor list. -/
lemma findCurrentMeasure_char (anchors : List Anchor) (t : ℚ) :
    findCurrentMeasure anchors t =
      match ((timeSorted anchors).takeWhile (anchorLE t)).getLast? with
      | none => (1, 0)
      | some a =>
        (a.measure,
          match ((timeSorted anchors).drop
              ((timeSorted anchors).takeWhile (anchorLE t)).length).head? with
          | none => 0
          | some b =>
            if a.time < b.time then jsMax 0 (jsMin 1 ((t - a.time) / (b.time - a.time)))
            else 0) := by
  by_cases he : anchors.isEmpty
  · have : anchors = [] := by simpa [List.isEmpty_iff] using he
    subst this
    simp [findCurrentMeasure, timeSorted]
  · rw [findCurrentMeasure, if_neg he]
    simp only [findLoop_char]
    cases hgl : ((timeSorted anchors).takeWhile (anchorLE t)).getLast? with
    | none => rfl
    | some a =>
      cases hb : ((timeSorted anchors).drop
          ((timeSorted anchors).takeWhile (anchorLE t)).length).head? with
      | none => simp [hb]
      | some b => simp [hb]

/-- Membership transfers through the stable sort. -/
lemma mem_timeSorted {a : Anchor} {l : List Anchor} : a ∈ timeSorted l ↔ a ∈ l :=
  (List.perm_insertionSort Anchor.byTime l).mem_iff

/-- The stable sort output is sorted (non-decreasing in time). -/
lemma sorted_timeSorted (l : List Anchor) : (timeSorted l).Sorted Anchor.byTime :=
  List.sorted_insertionSort Anchor.byTime l

/-- On a time-sorted list, if index `i` holds the last anchor whose time is
at most `t`, then the accepted prefix is exactly the first `i + 1` anchors. -/
lemma takeWhile_eq_take_of_sorted {s : List Anchor} {t : ℚ}
    (hs : s.Sorted Anchor.byTime) {i : Nat} {a : Anchor}
    (hi : s[i]? = some a) (ha : a.time ≤ t)
    (hnext : ∀ b, s[i+1]? = some b → t < b.time) :
    s.takeWhile (anchorLE t) = s.take (i+1) := by
  induction s generalizing i with
  | nil => simp at hi
  | cons x rest ih =>
    cases i with
    | zero =>
      have hxa : x = a := by simpa using hi
      subst hxa
      rw [List.takeWhile_cons, if_pos (by simp [anchorLE, ha])]
      cases rest with
      | nil => simp
      | cons y ys =>
        have hy : t < y.time := hnext y (by simp)
        rw [List.takeWhile_cons, if_neg (by simp [anchorLE]; exact hy)]
        simp
    | succ j =>
      have hi' : rest[j]? = some a := by simpa using hi
      have hmem : a ∈ rest := by
        rcases List.getElem?_eq_some.mp hi' with ⟨h, hg⟩
        exact hg ▸ List.getElem_mem h
      have hx : x.time ≤ a.time := (List.sorted_cons.mp hs).1 a hmem
      have hrest : rest.Sorted Anchor.byTime := (List.sorted_cons.mp hs).2
      have hnext' : ∀ b, rest[j+1]? = some b → t < b.time := by
        intro b hb
        exact hnext b (by simpa using hb)
      rw [List.takeWhile_cons, if_pos (by simp [anchorLE]; exact le_trans hx ha),
        ih hrest hi' hnext']
      simp [List.take_succ_cons]

/-- An element produced by `getLast?` is a member of the list. -/
lemma mem_of_getLast?_eq {l : List Anchor} {a : Anchor} (h : l.getLast? = some a) :
    a ∈ l := by
  rw [List.getLast?_eq_getElem?] at h
  rcases List.getElem?_eq_some.mp h with ⟨hlt, hg⟩
  exact hg ▸ List.getElem_mem hlt

/-- If index `i` of the time-sorted anchors holds the last anchor whose time
is at most `t`, then `findCurrentMeasure` returns that anchor's measure,
with the progress computed from the segment to the next sorted anchor. -/
lemma findCurrentMeasure_active {anchors : List Anchor} {t : ℚ} {i : Nat} {a : Anchor}
    (hi : (timeSorted anchors)[i]? = some a) (ha : a.time ≤ t)
    (hnext : ∀ b, (timeSorted anchors)[i+1]? = some b → t < b.time) :
    findCurrentMeasure anchors t =
      (a.measure,
        match (timeSorted anchors)[i+1]? with
        | none => 0
        | some b =>
          if a.time < b.time then jsMax 0 (jsMin 1 ((t - a.time) / (b.time - a.time)))
          else 0) := by
  have hs := sorted_timeSorted anchors
  have htw := takeWhile_eq_take_of_sorted hs hi ha hnext
  have hlen : i < (timeSorted anchors).length := (List.getElem?_eq_some.mp hi).1
  have hlen' : (List.take (i+1) (timeSorted anchors)).length = i + 1 := by
    rw [List.length_take, Nat.min_eq_left (by omega)]
  have hgl : (List.take (i+1) (timeSorted anchors)).getLast? = some a := by
    rw [List.getLast?_eq_getElem?, hlen']
    simpa [List.getElem?_take] using hi
  rw [findCurrentMeasure_char, htw, hgl, hlen', List.head?_drop]

/-- The measure component of `findCurrentMeasure`, characterised through
the accepted prefix of the time-sorted anchors. -/
lemma findCurrentMeasure_fst (anchors : List Anchor) (t : ℚ) :
    (findCurrentMeasure anchors t).1 =
      match ((timeSorted anchors).takeWhile (anchorLE t)).getLast? with
      | none => 1
      | some a => a.measure := by
  rw [findCurrentMeasure_char]
  cases ((timeSorted anchors).takeWhile (anchorLE t)).getLast? with
  | none => rfl
  | some a => rfl

/-- A weaker guard accepts a prefix of what a stronger guard accepts. -/
lemma takeWhile_prefix_of_imp {p q : Anchor → Bool}
    (hpq : ∀ x, p x = true → q x = true) (l : List Anchor) :
    l.takeWhile p <+: l.takeWhile q := by
  induction l with
  | nil => simp
  | cons x xs ih =>
    by_cases hp : p x = true
    · rw [List.takeWhile_cons, if_pos hp, List.takeWhile_cons, if_pos (hpq x hp)]
      rcases ih with ⟨tl, htl⟩
      exact ⟨tl, by rw [List.cons_append, htl]⟩
    · rw [List.takeWhile_cons, if_neg hp]
      exact List.nil_prefix

/-- C1: the position interpolator `findCurrentMeasure` (the locate of the
spec) satisfies its reference definition: the empty anchor list yields
(measure 1, progress 0); when index `i` of the time-sorted anchors holds
the last anchor whose time ≤ query time, that anchor is active, progress
is `(time - segStart)/(segEnd - segStart)` clamped to `[0, 1]` with
`segEnd` the time of the next anchor, and progress is `0` when the
segment is unbounded (last anchor) or zero-length; and on anchors
`[(1,0),(2,10),(4,25)]` the times `5, 10, 17.5, 30` give
`(1, 1/2), (2, 0), (2, 1/2), (4, 0)`. -/
theorem c1_position_interpolator :
    (∀ t : ℚ, findCurrentMeasure [] t = (1, 0))
    ∧ (∀ (anchors : List Anchor) (t : ℚ) (i : Nat) (a : Anchor),
        (timeSorted anchors)[i]? = some a → a.time ≤ t →
        (∀ b, (timeSorted anchors)[i+1]? = some b → t < b.time) →
        findCurrentMeasure anchors t =
          (a.measure,
            match (timeSorted anchors)[i+1]? with
            | none => 0
            | some b =>
              if a.time < b.time then jsMax 0 (jsMin 1 ((t - a.time) / (b.time - a.time)))
              else 0))
    ∧ findCurrentMeasure [⟨1, 0⟩, ⟨2, 10⟩, ⟨4, 25⟩] 5 = (1, 1/2)
    ∧ findCurrentMeasure [⟨1, 0⟩, ⟨2, 10⟩, ⟨4, 25⟩] 10 = (2, 0)
    ∧ findCurrentMeasure [⟨1, 0⟩, ⟨2, 10⟩, ⟨4, 25⟩] (35/2) = (2, 1/2)
    ∧ findCurrentMeasure [⟨1, 0⟩, ⟨2, 10⟩, ⟨4, 25⟩] 30 = (4, 0) := by
  refine ⟨?_, ?_, ?_, ?_, ?_, ?_⟩
  · intro t; norm_num [findCurrentMeasure]
  · intro anchors t i a hi ha hnext
    exact findCurrentMeasure_active hi ha hnext
  · norm_num [findCurrentMeasure, timeSorted, findLoop, jsMin, jsMax, Anchor.byTime]
  · norm_num [findCurrentMeasure, timeSorted, findLoop, jsMin, jsMax, Anchor.byTime]
  · norm_num [findCurrentMeasure, timeSorted, findLoop, jsMin, jsMax, Anchor.byTime]
  · norm_num [findCurrentMeasure, timeSorted, findLoop, jsMin, jsMax, Anchor.byTime]

/-- Witness for C1: the universally quantified part applied at the anchors
`[(1,0), (2,10)]` with query time 5 and active index 0. -/
theorem c1_position_interpolator_witness :
    findCurrentMeasure [⟨1, 0⟩, ⟨2, 10⟩] 5 = (1, 1/2) := by
  have hsort : timeSorted [⟨1, (0 : ℚ)⟩, ⟨2, 10⟩] = [⟨1, 0⟩, ⟨2, 10⟩] := by
    norm_num [timeSorted, Anchor.byTime]
  have h := c1_position_interpolator.2.1 [⟨1, 0⟩, ⟨2, 10⟩] 5 0 ⟨1, 0⟩
    (by rw [hsort]; rfl) (by norm_num)
    (by intro b hb
        rw [hsort] at hb
        simp only [List.getElem?_cons_succ, List.getElem?_cons_zero, Option.some_inj] at hb
        rw [← hb]
        norm_num)
  rw [h, hsort]
  norm_num [jsMin, jsMax]

/-- C9: a query time strictly before every anchor's time yields
(measure 1, progress 0) even when measure 1 is not anchored; in particular
anchors `[(3, 5)]` at time 2 give measure 1, not measure 3. -/
theorem c9_time_before_all_anchors :
    (∀ (anchors : List Anchor) (t : ℚ), anchors ≠ [] →
      (∀ a ∈ anchors, t < a.time) → findCurrentMeasure anchors t = (1, 0))
    ∧ findCurrentMeasure [⟨3, 5⟩] 2 = (1, 0) := by
  constructor
  · intro anchors t _ hall
    rw [findCurrentMeasure_char]
    have htw : (timeSorted anchors).takeWhile (anchorLE t) = [] := by
      cases hs : timeSorted anchors with
      | nil => simp
      | cons x rest =>
        have hx : x ∈ anchors := mem_timeSorted.mp (hs ▸ List.mem_cons_self x rest)
        rw [List.takeWhile_cons, if_neg]
        simp only [anchorLE, decide_eq_true_eq, not_le]
        exact hall x hx
    rw [htw]
    rfl
  · norm_num [findCurrentMeasure, timeSorted, findLoop, Anchor.byTime]

/-- Witness for C9: the theorem applied to the anchor list `[(7, 4)]` at
query time 3. -/
theorem c9_time_before_all_anchors_witness :
    findCurrentMeasure [⟨7, 4⟩] 3 = (1, 0) := by
  refine c9_time_before_all_anchors.1 [⟨7, 4⟩] 3 (by simp) ?_
  intro a ha
  rw [List.mem_singleton] at ha
  subst ha
  norm_num

/-- Counterexample to C2: for the anchors `[(5, 10), (2, 10)]` (two anchors
tied at time 10, both ≤ the query time 10) `findCurrentMeasure` returns
measure 2, not the larger measure 5: the stable sort keeps tied anchors in
original-list order, so the later original entry wins, which need not be
the one with the larger measure. -/
theorem c2_counterexample :
    ¬ (∀ (anchors : List Anchor) (t : ℚ) (a b : Anchor),
        a ∈ anchors → b ∈ anchors → a.time = b.time → a.time ≤ t → b.time ≤ t →
        a.measure < b.measure → (findCurrentMeasure anchors t).1 = b.measure) := by
  intro h
  have h5 := h [⟨5, 10⟩, ⟨2, 10⟩] 10 ⟨2, 10⟩ ⟨5, 10⟩
    (by simp) (by simp) rfl (by norm_num) (by norm_num) (by norm_num)
  have h2 : (findCurrentMeasure [⟨5, 10⟩, ⟨2, 10⟩] 10).1 = 2 := by
    norm_num [findCurrentMeasure, timeSorted, findLoop, Anchor.byTime]
  rw [h2] at h5
  exact absurd h5 (by norm_num)

/-- C2 (amended): when two anchors share a time and index `j` of the
time-sorted list holds the later tied entry, and it is the last anchor
whose time ≤ query time, its measure is returned — the tie goes to the
later entry of the stable time-sorted order (by stability, the tied anchor
occurring later in the original list), not necessarily to the larger
measure number; on `[(5,10),(2,10)]` at time 10 the result is measure 2,
the later original entry. -/
theorem c2_tie_resolution_amended :
    (∀ (anchors : List Anchor) (t : ℚ) (i j : Nat) (a b : Anchor),
      (timeSorted anchors)[i]? = some a → (timeSorted anchors)[j]? = some b →
      i < j → a.time = b.time → b.time ≤ t →
      (∀ c, (timeSorted anchors)[j+1]? = some c → t < c.time) →
      (findCurrentMeasure anchors t).1 = b.measure)
    ∧ (findCurrentMeasure [⟨5, 10⟩, ⟨2, 10⟩] 10).1 = 2 := by
  constructor
  · intro anchors t i j a b _ hj _ _ hbt hnext
    rw [findCurrentMeasure_active hj hbt hnext]
  · norm_num [findCurrentMeasure, timeSorted, findLoop, Anchor.byTime]

/-- Witness for C2 (amended): the theorem applied to `[(5,10),(2,10)]` at
query time 11, tied indices 0 and 1 of the sorted order. -/
theorem c2_tie_resolution_amended_witness :
    (findCurrentMeasure [⟨5, 10⟩, ⟨2, 10⟩] 11).1 = 2 := by
  have hsort : timeSorted [⟨5, (10 : ℚ)⟩, ⟨2, 10⟩] = [⟨5, 10⟩, ⟨2, 10⟩] := by
    norm_num [timeSorted, Anchor.byTime]
  refine c2_tie_resolution_amended.1 [⟨5, 10⟩, ⟨2, 10⟩] 11 0 1 ⟨5, 10⟩ ⟨2, 10⟩
    (by rw [hsort]; rfl) (by rw [hsort]; rfl) (by norm_num) rfl (by norm_num) ?_
  intro c hc
  rw [hsort] at hc
  simp at hc

/-- Counterexample to C3: the measure returned by `findCurrentMeasure` is
not monotone in the query time for every anchor list: on
`[(3, 0), (2, 10)]` the measure at time 0 is 3 but at time 10 it is 2. -/
theorem c3_counterexample :
    ¬ (∀ (anchors : List Anchor) (t1 t2 : ℚ), t1 ≤ t2 →
        (findCurrentMeasure anchors t1).1 ≤ (findCurrentMeasure anchors t2).1) := by
  intro h
  have hmono := h [⟨3, 0⟩, ⟨2, 10⟩] 0 10 (by norm_num)
  have h0 : (findCurrentMeasure [⟨3, 0⟩, ⟨2, 10⟩] 0).1 = 3 := by
    norm_num [findCurrentMeasure, timeSorted, findLoop, Anchor.byTime]
  have h10 : (findCurrentMeasure [⟨3, 0⟩, ⟨2, 10⟩] 10).1 = 2 := by
    norm_num [findCurrentMeasure, timeSorted, findLoop, Anchor.byTime]
  rw [h0, h10] at hmono
  exact absurd hmono (by norm_num)

/-- C3 (amended): the measure component of `findCurrentMeasure` is monotone
non-decreasing in the query time for anchor lists whose time-sorted order
has non-decreasing measure numbers (measure order agreeing with time
order) and whose measures are positive (the data-model invariant). -/
theorem c3_measure_monotonicity_amended :
    ∀ (anchors : List Anchor),
      (timeSorted anchors).Pairwise Anchor.byMeasure →
      (∀ a ∈ anchors, 1 ≤ a.measure) →
      ∀ t1 t2 : ℚ, t1 ≤ t2 →
      (findCurrentMeasure anchors t1).1 ≤ (findCurrentMeasure anchors t2).1 := by
  intro anchors hpm hpos t1 t2 h12
  have hone : ∀ b ∈ (timeSorted anchors).takeWhile (anchorLE t2), 1 ≤ b.measure := by
    intro b hb
    exact hpos b (mem_timeSorted.mp ((List.takeWhile_sublist _).subset hb))
  have hq2pm : ((timeSorted anchors).takeWhile (anchorLE t2)).Pairwise Anchor.byMeasure :=
    hpm.sublist (List.takeWhile_sublist _)
  have hpre : (timeSorted anchors).takeWhile (anchorLE t1) <+:
      (timeSorted anchors).takeWhile (anchorLE t2) := by
    refine takeWhile_prefix_of_imp ?_ _
    intro x hx
    simp only [anchorLE, decide_eq_true_eq] at hx ⊢
    exact le_trans hx h12
  rw [findCurrentMeasure_fst, findCurrentMeasure_fst]
  cases hg1 : ((timeSorted anchors).takeWhile (anchorLE t1)).getLast? with
  | none =>
    cases hg2 : ((timeSorted anchors).takeWhile (anchorLE t2)).getLast? with
    | none => exact le_refl 1
    | some b => exact hone b (mem_of_getLast?_eq hg2)
  | some a =>
    set q1 := (timeSorted anchors).takeWhile (anchorLE t1) with hq1def
    set q2 := (timeSorted anchors).takeWhile (anchorLE t2) with hq2def
    have hq1take : q1 = q2.take q1.length := List.prefix_iff_eq_take.mp hpre
    have hne : q1 ≠ [] := by
      intro hnil
      rw [hnil] at hg1
      simp at hg1
    have hk1pos : 0 < q1.length := List.length_pos.mpr hne
    have hk1le : q1.length ≤ q2.length := hpre.length_le
    have hk2pos : 0 < q2.length := lt_of_lt_of_le hk1pos hk1le
    have ha1 : q2[q1.length - 1]? = some a := by
      have := hg1
      rw [List.getLast?_eq_getElem?, hq1take] at this
      rw [List.getElem?_take] at this
      simpa [List.length_take, Nat.min_eq_left hk1le,
        Nat.sub_lt hk1pos Nat.one_pos] using this
    cases hg2 : q2.getLast? with
    | none =>
      rw [List.getLast?_eq_none_iff] at hg2
      rw [hg2] at ha1
      simp at ha1
    | some b =>
      have hb1 : q2[q2.length - 1]? = some b := by
        rw [← List.getLast?_eq_getElem?]; exact hg2
      rcases List.getElem?_eq_some.mp ha1 with ⟨hia, hga⟩
      rcases List.getElem?_eq_some.mp hb1 with ⟨hib, hgb⟩
      rcases Nat.lt_or_ge (q1.length - 1) (q2.length - 1) with hlt | hge
      · have := List.pairwise_iff_getElem.mp hq2pm (q1.length - 1) (q2.length - 1) hia hib hlt
        rw [hga, hgb] at this
        exact this
      · have heq : q1.length - 1 = q2.length - 1 := by omega
        rw [heq] at ha1
        rw [ha1] at hb1
        injection hb1 with hab
        exact le_of_eq (congrArg Anchor.measure hab)

/-- Witness for C3 (amended): the theorem applied to `[(1,0),(2,10)]` at
query times 3 and 12. -/
theorem c3_measure_monotonicity_amended_witness :
    (findCurrentMeasure [⟨1, 0⟩, ⟨2, 10⟩] 3).1 ≤ (findCurrentMeasure [⟨1, 0⟩, ⟨2, 10⟩] 12).1 := by
  refine c3_measure_monotonicity_amended [⟨1, 0⟩, ⟨2, 10⟩] ?_ ?_ 3 12 (by norm_num)
  · have hsort : timeSorted [⟨1, (0 : ℚ)⟩, ⟨2, 10⟩] = [⟨1, 0⟩, ⟨2, 10⟩] := by
      norm_num [timeSorted, Anchor.byTime]
    rw [hsort]
    norm_num [List.pairwise_cons, Anchor.byMeasure]
  · intro a ha
    simp only [List.mem_cons, List.not_mem_nil, or_false] at ha
    rcases ha with rfl | rfl <;> norm_num

/-- Shifting the starting index of the hit-test loop shifts its result. -/
lemma hitTestLoop_shift (u cx cy : ℚ) (ms : List (Option (List (Option PosShape)))) :
    ∀ k, hitTestLoop u cx cy ms k = (hitTestLoop u cx cy ms 0).map (k + ·) := by
  induction ms with
  | nil => intro k; rfl
  | cons m? rest ih =>
    intro k
    cases m? with
    | none =>
      simp only [hitTestLoop]
      rw [ih (k + 1), ih 1]
      cases hitTestLoop u cx cy rest 0 with
      | none => rfl
      | some j => simp only [Option.map]; congr 1; omega
    | some staves =>
      by_cases hc : boxContains u staves cx cy
      · simp [hitTestLoop, hc]
      · simp only [hitTestLoop, if_neg hc]
        rw [ih (k + 1), ih 1]
        cases hitTestLoop u cx cy rest 0 with
        | none => rfl
        | some j => simp only [Option.map]; congr 1; omega

/-- A hit returned by the hit-test loop is the first measure in scan order
whose bounding box contains the click point: the box of the hit measure
contains the point, and the box of no earlier measure does. -/
lemma hitTestLoop_first (u cx cy : ℚ) :
    ∀ (ms : List (Option (List (Option PosShape)))) (i : Nat),
      hitTestLoop u cx cy ms 0 = some i →
      (∃ staves, ms[i]? = some (some staves) ∧ boxContains u staves cx cy) ∧
      ∀ j staves', j < i → ms[j]? = some (some staves') →
        ¬ boxContains u staves' cx cy := by
  intro ms
  induction ms with
  | nil => intro i h; simp [hitTestLoop] at h
  | cons m? rest ih =>
    intro i h
    cases m? with
    | none =>
      simp only [hitTestLoop] at h
      rw [hitTestLoop_shift u cx cy rest 1] at h
      cases h0 : hitTestLoop u cx cy rest 0 with
      | none => rw [h0] at h; simp at h
      | some i0 =>
        rw [h0] at h
        simp only [Option.map, Option.some_inj] at h
        obtain ⟨⟨staves, hst, hcont⟩, hprev⟩ := ih i0 h0
        refine ⟨⟨staves, ?_, hcont⟩, ?_⟩
        · rw [← h, show 1 + i0 = i0 + 1 by omega]
          simpa using hst
        · intro j staves' hj hget
          cases j with
          | zero => simp at hget
          | succ j' =>
            refine hprev j' staves' (by omega) ?_
            simpa using hget
    | some staves0 =>
      by_cases hc : boxContains u staves0 cx cy
      · simp only [hitTestLoop, if_pos hc, Option.some_inj] at h
        refine ⟨⟨staves0, by rw [← h]; simp, hc⟩, ?_⟩
        intro j staves' hj
        omega
      · simp only [hitTestLoop, if_neg hc] at h
        rw [hitTestLoop_shift u cx cy rest 1] at h
        cases h0 : hitTestLoop u cx cy rest 0 with
        | none => rw [h0] at h; simp at h
        | some i0 =>
          rw [h0] at h
          simp only [Option.map, Option.some_inj] at h
          obtain ⟨⟨staves, hst, hcont⟩, hprev⟩ := ih i0 h0
          refine ⟨⟨staves, ?_, hcont⟩, ?_⟩
          · rw [← h, show 1 + i0 = i0 + 1 by omega]
            simpa using hst
          · intro j staves' hj hget
            cases j with
            | zero =>
              simp only [List.getElem?_cons_zero, Option.some_inj] at hget
              intro hcon
              exact hc (by rw [hget]; exact hcon)
            | succ j' =>
              refine hprev j' staves' (by omega) ?_
              simpa using hget

/-- If the box of some measure contains the click point, the hit-test
loop reports a hit at that measure or an earlier one. -/
lemma hitTestLoop_complete (u cx cy : ℚ) :
    ∀ (ms : List (Option (List (Option PosShape)))) (j : Nat)
      (staves : List (Option PosShape)),
      ms[j]? = some (some staves) → boxContains u staves cx cy →
      ∃ i, i ≤ j ∧ hitTestLoop u cx cy ms 0 = some i := by
  intro ms
  induction ms with
  | nil => intro j staves h; simp at h
  | cons m? rest ih =>
    intro j staves hget hcont
    cases j with
    | zero =>
      simp only [List.getElem?_cons_zero, Option.some_inj] at hget
      subst hget
      exact ⟨0, le_refl 0, by simp [hitTestLoop, hcont]⟩
    | succ j' =>
      have hget' : rest[j']? = some (some staves) := by simpa using hget
      obtain ⟨i0, hi0le, hi0⟩ := ih j' staves hget' hcont
      cases m? with
      | none =>
        refine ⟨1 + i0, by omega, ?_⟩
        simp only [hitTestLoop]
        rw [hitTestLoop_shift u cx cy rest 1, hi0]
        rfl
      | some staves0 =>
        by_cases hc : boxContains u staves0 cx cy
        · exact ⟨0, by omega, by simp [hitTestLoop, hc]⟩
        · refine ⟨1 + i0, by omega, ?_⟩
          simp only [hitTestLoop, if_neg hc]
          rw [hitTestLoop_shift u cx cy rest 1, hi0]
          rfl

/-- The anchor found by the reversed descending-by-measure scan is an
anchor with the greatest measure among those with measure at most the
clicked measure number. -/
lemma seekTarget_max {anchors : List Anchor} {m : Nat} {ta : Anchor}
    (h : seekTarget anchors m = some ta) :
    ta ∈ anchors ∧ ta.measure ≤ m ∧
      ∀ b ∈ anchors, b.measure ≤ m → b.measure ≤ ta.measure := by
  have hperm := List.perm_insertionSort Anchor.byMeasure anchors
  have hmem : ta ∈ anchors := by
    have := List.mem_of_find?_eq_some h
    rw [List.mem_reverse] at this
    exact hperm.mem_iff.mp this
  have hle : ta.measure ≤ m := by
    have := List.find?_some h
    simpa using this
  refine ⟨hmem, hle, ?_⟩
  intro b hb hbm
  have hpair : ((measureSorted anchors).reverse).Pairwise
      (fun x y => y.measure ≤ x.measure) := by
    rw [List.pairwise_reverse]
    exact List.sorted_insertionSort Anchor.byMeasure anchors
  obtain ⟨hpta, i0, hi0, hgi0, hfail⟩ := List.find?_eq_some_iff_getElem.mp h
  have hbrev : b ∈ (measureSorted anchors).reverse := by
    rw [List.mem_reverse]
    exact hperm.mem_iff.mpr hb
  obtain ⟨jb, hjb, hgjb⟩ := List.getElem_of_mem hbrev
  rcases Nat.lt_trichotomy jb i0 with hlt | heq | hgt
  · exfalso
    have := hfail jb hlt
    rw [hgjb] at this
    simp at this
    omega
  · subst heq
    rw [hgjb] at hgi0
    exact le_of_eq (congrArg Anchor.measure hgi0)
  · have := List.pairwise_iff_getElem.mp hpair i0 jb hi0 hjb hgt
    rw [hgi0, hgjb] at this
    exact this

/-- C4: click-to-seek. A hit reported by the scan of `handleScoreClick`
is the first measure (in measure order) whose pixel bounding box contains
the click point, and every box that contains the point yields a hit at it
or earlier; on a hit the audio clock is set exactly to the time of the
first match of the reversed descending-by-measure anchor scan, which is
an anchor with the largest measure number ≤ the clicked measure number,
with no interpolation; and a click inside the box of measure 3 with
anchors `[(1,0),(3,8)]` seeks the audio to time 8. -/
theorem c4_click_to_seek :
    (∀ (u cx cy : ℚ) (ms : List (Option (List (Option PosShape)))) (i : Nat),
      hitTestLoop u cx cy ms 0 = some i →
      (∃ staves, ms[i]? = some (some staves) ∧ boxContains u staves cx cy) ∧
      ∀ j staves', j < i → ms[j]? = some (some staves') →
        ¬ boxContains u staves' cx cy)
    ∧ (∀ (u cx cy : ℚ) (ms : List (Option (List (Option PosShape))))
        (j : Nat) (staves : List (Option PosShape)),
        ms[j]? = some (some staves) → boxContains u staves cx cy →
        ∃ i, i ≤ j ∧ hitTestLoop u cx cy ms 0 = some i)
    ∧ (∀ (u : ℚ) (ms : List (Option (List (Option PosShape))))
        (anchors : List Anchor) (clientX clientY rectLeft rectTop ct : ℚ)
        (i : Nat) (ta : Anchor),
        hitTestLoop u (clientX - rectLeft) (clientY - rectTop) ms 0 = some i →
        seekTarget anchors (i + 1) = some ta →
        handleScoreClick u ms anchors clientX clientY rectLeft rectTop ct = ta.time ∧
          ta ∈ anchors ∧ ta.measure ≤ i + 1 ∧
          ∀ b ∈ anchors, b.measure ≤ i + 1 → b.measure ≤ ta.measure)
    ∧ handleScoreClick 1 demoMeasureList [⟨1, 0⟩, ⟨3, 8⟩] 25 5 0 0 99 = 8 := by
  refine ⟨hitTestLoop_first, hitTestLoop_complete, ?_, ?_⟩
  · intro u ms anchors cX cY rL rT ct i ta hhit hseek
    obtain ⟨hmem, hle, hmax⟩ := seekTarget_max hseek
    refine ⟨?_, hmem, hle, hmax⟩
    simp [handleScoreClick, hhit, hseek]
  · norm_num [handleScoreClick, hitTestLoop, boxContains, measureBounds,
      demoMeasureList, seekTarget, measureSorted, Anchor.byMeasure,
      NUMBER_MAX_VALUE, NUMBER_MIN_VALUE]

/-- Witness for C4: the seek conjunct applied to the demo layout, whose
hit test lands on measure index 2 and whose anchor scan finds `(3, 8)`. -/
theorem c4_click_to_seek_witness :
    handleScoreClick 1 demoMeasureList [⟨1, 0⟩, ⟨3, 8⟩] 25 5 0 0 42 = 8 := by
  have h := c4_click_to_seek.2.2.1 1 demoMeasureList [⟨1, 0⟩, ⟨3, 8⟩]
    25 5 0 0 42 2 ⟨3, 8⟩
    (by norm_num [hitTestLoop, boxContains, measureBounds, demoMeasureList,
      NUMBER_MAX_VALUE, NUMBER_MIN_VALUE])
    (by norm_num [seekTarget, measureSorted, Anchor.byMeasure])
  exact h.1

/-- C10: when the click hits no measure box, or the clicked measure number
is smaller than every anchor's measure, `handleScoreClick` leaves the
audio clock unchanged. -/
theorem c10_click_no_seek :
    ∀ (u : ℚ) (ms : List (Option (List (Option PosShape))))
      (anchors : List Anchor) (clientX clientY rectLeft rectTop ct : ℚ),
      (hitTestLoop u (clientX - rectLeft) (clientY - rectTop) ms 0 = none →
        handleScoreClick u ms anchors clientX clientY rectLeft rectTop ct = ct)
      ∧ (∀ i, hitTestLoop u (clientX - rectLeft) (clientY - rectTop) ms 0 = some i →
          (∀ a ∈ anchors, i + 1 < a.measure) →
          handleScoreClick u ms anchors clientX clientY rectLeft rectTop ct = ct) := by
  intro u ms anchors cX cY rL rT ct
  constructor
  · intro h
    simp [handleScoreClick, h]
  · intro i hi hall
    have hnone : seekTarget anchors (i + 1) = none := by
      unfold seekTarget
      rw [List.find?_eq_none]
      intro x hx
      have hxa : x ∈ anchors := by
        rw [List.mem_reverse] at hx
        exact (List.perm_insertionSort Anchor.byMeasure anchors).mem_iff.mp hx
      have := hall x hxa
      simp only [decide_eq_true_eq]
      omega
    simp [handleScoreClick, hi, hnone]

/-- Witness for C10: a click on an empty layout leaves the clock at 7. -/
theorem c10_click_no_seek_witness :
    handleScoreClick 1 [] [⟨2, 3⟩] 5 5 0 0 7 = 7 :=
  (c10_click_no_seek 1 [] [⟨2, 3⟩] 5 5 0 0 7).1 rfl

/-- C5: reveal-mode measure visibility. After the update in NOTE mode,
every glyph of a measure strictly before the current one has opacity 1,
every glyph of a measure strictly after has opacity 0, and the current
measure's beams and rests have opacity 1; in particular for measures
{1,2,3} with current = 2, measure 1 is fully visible, measure 3 fully
hidden, and measure 2 beams/rests visible. -/
theorem c5_reveal_visibility :
    (∀ (contentMap : List (Nat × List Glyph)) (c : Nat) (entry : Nat × List Glyph),
      entry ∈ updateMeasureVisibility RevealMode.NOTE contentMap c →
      ∀ g ∈ entry.2,
        (entry.1 < c → g.opacity = 1) ∧
        (c < entry.1 → g.opacity = 0) ∧
        (entry.1 = c → g.cls = GlyphClass.beam ∨ g.cls = GlyphClass.rest →
          g.opacity = 1))
    ∧ updateMeasureVisibility RevealMode.NOTE
        [(1, [⟨GlyphClass.stavenote, 0⟩, ⟨GlyphClass.beam, 0⟩]),
         (2, [⟨GlyphClass.beam, 0⟩, ⟨GlyphClass.rest, 0⟩]),
         (3, [⟨GlyphClass.stavenote, 1⟩, ⟨GlyphClass.accidental, 1⟩])] 2 =
        [(1, [⟨GlyphClass.stavenote, 1⟩, ⟨GlyphClass.beam, 1⟩]),
         (2, [⟨GlyphClass.beam, 1⟩, ⟨GlyphClass.rest, 1⟩]),
         (3, [⟨GlyphClass.stavenote, 0⟩, ⟨GlyphClass.accidental, 0⟩])] := by
  constructor
  · intro contentMap c entry hentry g hg
    rw [updateMeasureVisibility, if_neg (by simp)] at hentry
    obtain ⟨e0, he0, rfl⟩ := List.mem_map.mp hentry
    obtain ⟨g0, hg0, rfl⟩ := List.mem_map.mp hg
    refine ⟨?_, ?_, ?_⟩
    · intro h1
      rw [updateGlyphVisibility, if_pos h1]
    · intro h1
      rw [updateGlyphVisibility, if_neg (by omega), if_pos h1]
    · intro h1 hcls
      rw [updateGlyphVisibility, if_neg (by omega), if_neg (by omega)]
      have hcls' : (updateGlyphVisibility c e0.1 g0).cls = g0.cls := by
        rw [updateGlyphVisibility]
        split <;> try rfl
        split <;> try rfl
        split <;> rfl
      rw [hcls'] at hcls
      rw [if_pos hcls]
  · norm_num [updateMeasureVisibility, updateGlyphVisibility]

/-- Witness for C5: the theorem applied to a one-measure content map with
current measure 2, whose update turns the measure-1 glyph opaque. -/
theorem c5_reveal_visibility_witness :
    (⟨GlyphClass.stavenote, (1 : ℚ)⟩ : Glyph).opacity = 1 := by
  have h := c5_reveal_visibility.1 [(1, [⟨GlyphClass.stavenote, 37⟩])] 2
    (1, [⟨GlyphClass.stavenote, 1⟩])
    (by norm_num [updateMeasureVisibility, updateGlyphVisibility])
    ⟨GlyphClass.stavenote, 1⟩ (by simp)
  exact h.1 (by norm_num)

/-- C6: per-note highlighting. In playback mode a note with an element is
painted the highlight colour exactly when the highlight progress lies in
`[timestamp - 0.04, timestamp + 0.01]` and the default colour otherwise,
and under NOTE reveal its opacity is 0 exactly when the highlight
progress is below `timestamp - 0.04`. The recording-mode clause of the
claim holds for the `AnchorSidebar.tsx` variant (every note reset to
default colour and full opacity), but the record loop of the `part_000`
variant — whose missing statement terminator makes the `undefined`
result of `applyColor` be invoked, with the opacity assignment chained
onto the result of that doomed call — throws a `TypeError` after merely
recoloring the first note: on a two-note measure with both notes at
opacity 0, the first note keeps opacity 0 (never restored to 1) and the
second note keeps both its opacity 0 and the highlight colour. -/
theorem c6_note_highlighting :
    (∀ (revealMode : RevealMode) (hp : ℚ) (n : NoteItem) (el : NoteStyleState),
      n.element = some el →
      ((styleNotePlayback revealMode hp n).element.map NoteStyleState.color =
        some (if hp ≤ n.timestamp + 1/100 ∧ n.timestamp - 4/100 ≤ hp
          then "#10B981" else "#000000"))
      ∧ (revealMode = RevealMode.NOTE →
          (styleNotePlayback revealMode hp n).element.map NoteStyleState.opacity =
            some (if hp < n.timestamp - 4/100 then 0 else 1)))
    ∧ (∀ (notes : List NoteItem) (n : NoteItem), n ∈ recordResetSidebar notes →
        ∀ el, n.element = some el → el.opacity = 1 ∧ el.color = "#000000")
    ∧ recordResetScroll [⟨0, some ⟨0, "#10B981"⟩⟩, ⟨1, some ⟨0, "#10B981"⟩⟩] =
        ([⟨0, some ⟨0, "#000000"⟩⟩, ⟨1, some ⟨0, "#10B981"⟩⟩],
         some "TypeError: applyColor(...) is not a function")
    ∧ recordResetSidebar [⟨0, some ⟨0, "#10B981"⟩⟩, ⟨1, some ⟨0, "#10B981"⟩⟩] =
        [⟨0, some ⟨1, "#000000"⟩⟩, ⟨1, some ⟨1, "#000000"⟩⟩] := by
  refine ⟨?_, ?_, rfl, rfl⟩
  · intro revealMode hp n el hel
    obtain ⟨ts, el?⟩ := n
    cases el? with
    | none => exact absurd hel (by simp)
    | some e =>
      constructor
      · simp only [styleNotePlayback]
        split_ifs <;> simp
      · intro hrm
        subst hrm
        simp only [styleNotePlayback, if_pos rfl]
        split_ifs <;> simp
  · intro notes n hn el hel
    obtain ⟨n0, hn0, rfl⟩ := List.mem_map.mp hn
    obtain ⟨ts0, el0?⟩ := n0
    cases el0? with
    | none => exact absurd hel (by simp [recordResetNote])
    | some e0 =>
      simp only [recordResetNote] at hel
      have : el = { e0 with opacity := 1, color := "#000000" } := by
        have := hel
        simp only [Option.some_inj] at this
        exact this.symm
      rw [this]
      exact ⟨rfl, rfl⟩

/-- Witness for C6: the playback conjunct applied to a note whose
timestamp equals the highlight progress, which is painted the highlight
colour. -/
theorem c6_note_highlighting_witness :
    (styleNotePlayback RevealMode.NOTE 0 ⟨0, some ⟨1, "#FFFFFF"⟩⟩).element.map
      NoteStyleState.color = some "#10B981" := by
  have h := c6_note_highlighting.1 RevealMode.NOTE 0 ⟨0, some ⟨1, "#FFFFFF"⟩⟩
    ⟨1, "#FFFFFF"⟩ rfl
  rw [h.1]
  norm_num

/-- Keys in the note map built from measure index `i` onwards are all
greater than `i`, so smaller keys are absent. -/
lemma calcNoteMapGo_lookup_le (dom : Dom) (u : ℚ) :
    ∀ (ms : List (Option (List (Option StaffMeasureG)))) (i m : Nat), m < i + 1 →
      (calcNoteMapGo dom u i ms).lookup m = none := by
  intro ms
  induction ms with
  | nil => intro i m _; rfl
  | cons s? rest ih =>
    intro i m hm
    simp only [calcNoteMapGo]
    by_cases he : (noteEntriesOfMeasure dom u (i + 1) s?).isEmpty
    · rw [if_pos he]
      exact ih (i + 1) m (by omega)
    · rw [if_neg he]
      have hne : (m == i + 1) = false := by
        simp only [beq_eq_false_iff_ne, ne_eq]
        omega
      simp only [List.lookup, hne]
      exact ih (i + 1) m (by omega)

/-- The note map built from measure index `i` holds, at key `m > i`,
exactly the entries of measure `m` computed from position `m - i - 1` of
the remaining measure list, absent when that measure contributed no
notes. -/
lemma calcNoteMapGo_lookup (dom : Dom) (u : ℚ) :
    ∀ (ms : List (Option (List (Option StaffMeasureG)))) (i m : Nat), i < m →
      (calcNoteMapGo dom u i ms).lookup m =
        match ms[m - i - 1]? with
        | none => none
        | some staves? =>
          if (noteEntriesOfMeasure dom u m staves?).isEmpty then none
          else some (noteEntriesOfMeasure dom u m staves?) := by
  intro ms
  induction ms with
  | nil => intro i m _; rfl
  | cons s? rest ih =>
    intro i m him
    simp only [calcNoteMapGo]
    rcases Nat.lt_or_ge (i + 1) m with hlt | hge
    · have hidx : m - i - 1 = (m - (i + 1) - 1) + 1 := by omega
      rw [hidx]
      simp only [List.getElem?_cons_succ]
      by_cases he : (noteEntriesOfMeasure dom u (i + 1) s?).isEmpty
      · rw [if_pos he]
        exact ih (i + 1) m hlt
      · rw [if_neg he]
        have hne : (m == i + 1) = false := by
          simp only [beq_eq_false_iff_ne, ne_eq]
          omega
        simp only [List.lookup, hne]
        exact ih (i + 1) m hlt
    · have hm : m = i + 1 := by omega
      subst hm
      have hidx : i + 1 - i - 1 = 0 := by omega
      rw [hidx]
      simp only [List.getElem?_cons_zero]
      by_cases he : (noteEntriesOfMeasure dom u (i + 1) s?).isEmpty
      · rw [if_pos he, if_pos he]
        exact calcNoteMapGo_lookup_le dom u rest (i + 1) (i + 1) (by omega)
      · rw [if_neg he, if_neg he]
        simp [List.lookup]

/-- Counterexample to C7: a zero-width measure is not skipped by the
note-map pass — its resolvable note still contributes an entry (whose
timestamp is a division by zero, rendered here as the rational 0), so the
map built from a layout containing only a zero-width measure is not
empty. -/
theorem c7_counterexample :
    calculateNoteMap c7Dom 10 c7MeasureList ≠ [] ∧
    (calculateNoteMap c7Dom 10 c7MeasureList).lookup 1 =
      some [⟨"n1", 1, 0, 7⟩] := by
  have heval : calculateNoteMap c7Dom 10 c7MeasureList = [(1, [⟨"n1", 1, 0, 7⟩])] := by
    norm_num [calculateNoteMap, calcNoteMapGo, noteEntriesOfMeasure,
      noteEntriesOfEntry, noteEntriesOfNote, c7Dom, c7MeasureList]
    decide
  rw [heval]
  exact ⟨by simp, by simp [List.lookup]⟩

/-- C7 (amended): the note-map pass is a total function of the layout — a
measure with missing (`null`) or empty staves, missing staff measures,
missing voice entries or notes, or unresolvable note elements contributes
no entries, the map holds each measure's entries independently of every
other measure, and replacing any one measure (for example with malformed
data) leaves all other measures' entries unchanged; a zero-width measure,
however, is not skipped — its resolvable notes are still mapped, with a
division-by-zero timestamp. -/
theorem c7_geometry_mapper_amended :
    (∀ (dom : Dom) (u : ℚ) (ms : List (Option (List (Option StaffMeasureG))))
      (m : Nat), 1 ≤ m →
      (calculateNoteMap dom u ms).lookup m =
        match ms[m - 1]? with
        | none => none
        | some staves? =>
          if (noteEntriesOfMeasure dom u m staves?).isEmpty then none
          else some (noteEntriesOfMeasure dom u m staves?))
    ∧ (∀ (dom : Dom) (u : ℚ) (m : Nat), noteEntriesOfMeasure dom u m none = [])
    ∧ (∀ (dom : Dom) (u : ℚ) (m : Nat), noteEntriesOfMeasure dom u m (some []) = [])
    ∧ (∀ (dom : Dom) (u : ℚ) (ms : List (Option (List (Option StaffMeasureG))))
        (k : Nat) (w : Option (List (Option StaffMeasureG))) (m : Nat),
        1 ≤ m → m ≠ k + 1 →
        (calculateNoteMap dom u (ms.set k w)).lookup m =
          (calculateNoteMap dom u ms).lookup m) := by
  refine ⟨?_, ?_, ?_, ?_⟩
  · intro dom u ms m hm
    have h := calcNoteMapGo_lookup dom u ms 0 m (by omega)
    simpa [calculateNoteMap] using h
  · intro dom u m; rfl
  · intro dom u m; rfl
  · intro dom u ms k w m hm hk
    have h1 := calcNoteMapGo_lookup dom u (ms.set k w) 0 m (by omega)
    have h2 := calcNoteMapGo_lookup dom u ms 0 m (by omega)
    simp only [calculateNoteMap]
    rw [h1, h2, List.getElem?_set_ne (by omega)]

/-- Witness for C7 (amended): the characterisation applied to a layout
whose only measure has `null` staves, which contributes no entry. -/
theorem c7_geometry_mapper_amended_witness :
    (calculateNoteMap c7Dom 10 [none]).lookup 1 = none := by
  have h := c7_geometry_mapper_amended.1 c7Dom 10 [none] 1 (le_refl 1)
  simpa [noteEntriesOfMeasure] using h

/-- C8: per-frame exceptions are never fatal. Whenever the `try` body
raises — at any injected DOM fault point or at the record-reset
`TypeError` — `updateCursorPosition` returns normally with the state
reached at the throw point (the remaining updates of the frame are
skipped) and the logged message; `animate` always re-registers itself
after the call; and the animation loop therefore executes every frame,
whatever faults occur. -/
theorem c8_frame_exceptions_nonfatal :
    (∀ (env : FrameEnv) (st st' : FrameState) (msg : String) (gs : GSheet),
      env.osmdLoaded = true → env.isLoaded = true → env.cursorPresent = true →
      env.graphicSheet = some gs →
      tryBody env st gs (findCurrentMeasure env.anchors env.audioTime).1
        (findCurrentMeasure env.anchors env.audioTime).2 = Except.error (st', msg) →
      updateCursorPosition env st = (st', ["Error positioning cursor: " ++ msg]))
    ∧ (∀ (env : FrameEnv) (st : FrameState), (animate env st).2 = true)
    ∧ (∀ (envs : List FrameEnv) (st : FrameState),
        (animationLoop envs st).2.2 = envs.length) := by
  refine ⟨?_, ?_, ?_⟩
  · intro env st st' msg gs h1 h2 h3 hgs htry
    rw [updateCursorPosition, if_neg (by simp [h1, h2, h3]), hgs]
    simp only [htry]
  · intro env st
    rfl
  · intro envs
    induction envs with
    | nil => intro st; rfl
    | cons env rest ih =>
      intro st
      simp only [animationLoop, animate, if_pos]
      rw [ih]
      rfl

/-- Witness for C8: with a fault injected at the first DOM write, the
frame is caught and logged and the state is unchanged. -/
theorem c8_frame_exceptions_nonfatal_witness :
    updateCursorPosition c8Env c8State =
      (c8State, ["Error positioning cursor: " ++ "boom"]) := by
  refine c8_frame_exceptions_nonfatal.1 c8Env c8State c8State "boom" c8Sheet
    rfl rfl rfl rfl ?_
  rfl
